import Mathlib

/-!
Shallow embedding of `bcbio/pipeline/lane.py` (lane preparation and dispatch
driver).  Python dictionaries holding configuration data are modelled as
association lists over string keys; configuration values are modelled by the
`PyVal` type together with Python truthiness.  External collaborators
(FASTQ discovery, demultiplexing, read splitting, trimming tools, the
aligner and the BAM sorter) are parameters of the embedded functions, as the
source treats them as black-box calls.  Exceptions (KeyError / IndexError) are
modelled by `Option` results.  A barcode identifier or split index is
modelled by the arbitrary string that `"%s" % v` / `"{0}".format(v)` renders
it to (a string value renders to itself; null stays null), so lane-name
synthesis concatenates arbitrary strings exactly as the source does.
-/

set_option autoImplicit false

namespace Lane

/-- A Python value as stored in the configuration dictionaries. -/
inductive PyVal where
  | none
  | bool (b : Bool)
  | int (n : Int)
  | str (s : String)
  deriving DecidableEq, Repr

/-- Python truthiness of a `PyVal` (`None`/`False`/`0`/`""` are falsy). -/
def pythonTruthy : PyVal → Bool
  | PyVal.none => false
  | PyVal.bool b => b
  | PyVal.int n => n ≠ 0
  | PyVal.str s => s ≠ ""

/-- A string-keyed Python dictionary of `PyVal`s, as an association list
(first binding of a key is its value; real dictionaries have unique keys). -/
abbrev Dict := List (String × PyVal)

/-- `d.get(k)` / `d[k]`: value of the first binding of `k`. -/
def dictGet : Dict → String → Option PyVal
  | [], _ => Option.none
  | kv :: rest, k => if kv.1 = k then some kv.2 else dictGet rest k

/-- `d[k] = v`: replace the binding of `k`, or append it when absent. -/
def dictSet (d : Dict) (k : String) (v : PyVal) : Dict :=
  match d with
  | [] => [(k, v)]
  | kv :: rest => if kv.1 = k then (k, v) :: rest else kv :: dictSet rest k v

/-- Assign every binding of `u` into `d`, in `u`'s order
(`for key, val in u.iteritems(): d[key] = val`). -/
def overlay (d : Dict) (u : Dict) : Dict :=
  u.foldl (fun acc kv => dictSet acc kv.1 kv.2) d

/-- The run configuration: the nested mapping with the sub-mappings read by
`lane.py`.  `algorithm` and `custom_algorithms` are indexed with `[]` in the
source (assumed present); `distributed` is read with `.get` (may be absent,
hence `Option`). -/
structure Config where
  algorithm : Dict
  custom_algorithms : List (String × Dict)
  distributed : Option Dict
  deriving DecidableEq, Repr

/-- One sample descriptor (a `lane_items` element). `barcode_id` is nullable
and otherwise an arbitrary value, modelled by its string rendering;
`name` and `analysis` are optional; `algorithm` is the per-sample override
mapping (`lane_info.get("algorithm", {})`). -/
structure LaneInfo where
  lane : String
  barcode_id : Option String
  description : String
  name : Option String
  analysis : Option String
  algorithm : Dict
  genome_build : String
  deriving DecidableEq, Repr

/-- The directory set handed through the pipeline (`dirs["fastq"]`,
`dirs["work"]` are the keys this module reads). -/
structure Dirs where
  fastq : String
  work : String
  deriving DecidableEq, Repr

/-- The synonym table `name_remaps`, applied through
`name_remaps.get(base_name, [base_name])`.  The lookup key is the sample's
`analysis` field, which may be absent (`None`). -/
def nameRemaps (base : Option String) : List (Option String) :=
  match base with
  | some "variant" => [some "SNP calling", some "variant"]
  | some "SNP calling" => [some "SNP calling", some "variant"]
  | x => [x]

/-- `config["custom_algorithms"].get(analysis_type, None)`; a `None` key
never matches the string keys of the mapping. -/
def lookupCustom (cas : List (String × Dict)) (k : Option String) : Option Dict :=
  match k with
  | Option.none => Option.none
  | some s => (cas.find? (fun kv => kv.1 == s)).map (·.2)

/-- `_update_config_w_custom(config, lane_info)`: deep-copy the configuration,
overlay the custom-algorithm bundle of every resolved analysis type onto
`algorithm` (skipping falsy bundles), then overlay the sample's own
`algorithm` overrides.  The deep copy makes the source function pure, so the
embedding is a plain function of the configuration value (aliasing is studied
separately with the store model below). -/
def update_config_w_custom (config : Config) (lane_info : LaneInfo) : Config :=
  let merged := (nameRemaps lane_info.analysis).foldl
    (fun c aty =>
      match lookupCustom c.custom_algorithms aty with
      | some custom =>
          if custom.isEmpty then c
          else { c with algorithm := overlay c.algorithm custom }
      | Option.none => c) config
  { merged with algorithm := overlay merged.algorithm lane_info.algorithm }

/-- A `(fastq1, fastq2-or-null, split-index-or-null)` triple; the split
index is an arbitrary value, modelled by its string rendering. -/
abbrev SplitUnit := String × Option String × Option String

/-- The barcode file map produced by the demultiplexing collaborator:
`barcode_id ↦ (fastq1, fastq2-or-null)`. -/
abbrev BcMap := List (Option String × (String × Option String))

/-- `bc_files[k]` / `bc_files.has_key(k)`. -/
def bcLookup : BcMap → Option String → Option (String × Option String)
  | [], _ => Option.none
  | kv :: rest, k => if kv.1 = k then some kv.2 else bcLookup rest k

/-- The `split_size` resolution of `_prep_fastq_files`:
`config.get("distributed", {}).get("align_split_size",
config["algorithm"].get("align_split_size", None))`.  Note `dict.get`
returns a stored value even when that value is `None`. -/
def splitSizeOf (config : Config) : PyVal :=
  let fallback := (dictGet config.algorithm "align_split_size").getD PyVal.none
  match config.distributed with
  | some d =>
      match dictGet d "align_split_size" with
      | some v => v
      | Option.none => fallback
  | Option.none => fallback

/-- The split-preparation directory
`os.path.join(dirs["work"], "align_splitprep", item["description"])`. -/
def splitPrepDir (dirs : Dirs) (item : LaneInfo) : String :=
  dirs.work ++ "/align_splitprep/" ++ item.description

/-- The signature of the external `split_read_files` collaborator:
`(fastq1, fastq2, item, split_size, split_dir, dirs, config)`. -/
abbrev SplitterFn :=
  String → Option String → LaneInfo → PyVal → String → Dirs → Config → List SplitUnit

/-- `_prep_fastq_files(item, bc_files, dirs, config)`: look the sample's
barcode up in the map (`none` models the KeyError on a missing key), then
either delegate to the splitting collaborator when the resolved split size is
truthy, or emit the single unit `[[fastq1, fastq2, None]]`. -/
def prep_fastq_files (splitter : SplitterFn) (item : LaneInfo) (bc_files : BcMap)
    (dirs : Dirs) (config : Config) : Option (List SplitUnit) :=
  (bcLookup bc_files item.barcode_id).map (fun fp =>
    let split_size := splitSizeOf config
    if pythonTruthy split_size then
      splitter fp.1 fp.2 item split_size (splitPrepDir dirs item) dirs config
    else [(fp.1, fp.2, Option.none)])

/-- The suffix appended to the base lane name by `process_lane`:
`"_%s" % barcode_id` when the barcode is non-null, then `"_s{0}".format(ext)`
when the split index is non-null (both values modelled by their string
renderings). -/
def laneSuffix (bc : Option String) (ext : Option String) : String :=
  (match bc with
   | some b => "_" ++ b
   | Option.none => "") ++
  (match ext with
   | some e => "_s" ++ e
   | Option.none => "")

/-- `"%s_%s_%s" % (lane_items[0]['lane'], fc_date, fc_name)`. -/
def baseLaneName (first : LaneInfo) (fc_date fc_name : String) : String :=
  first.lane ++ "_" ++ fc_date ++ "_" ++ fc_name

/-- `config["algorithm"].get("include_short_name", True)` as truthiness. -/
def includeShortName (config : Config) : Bool :=
  match dictGet config.algorithm "include_short_name" with
  | some v => pythonTruthy v
  | Option.none => true

/-- One dispatch tuple
`(fastq1, fastq2, item, cur_lane_name, cur_lane_desc, dirs, config)`. -/
structure DispatchRecord where
  fastq1 : String
  fastq2 : Option String
  info : LaneInfo
  laneName : String
  laneDesc : String
  dirs : Dirs
  config : Config
  deriving DecidableEq, Repr

/-- Build the dispatch tuple appended by the inner loop of `process_lane`. -/
def mkRecord (base : String) (dirs : Dirs) (item : LaneInfo) (config : Config)
    (u : SplitUnit) : DispatchRecord :=
  { fastq1 := u.1
    fastq2 := u.2.1
    info := item
    laneName := base ++ laneSuffix item.barcode_id u.2.2
    laneDesc :=
      if item.name.getD "" ≠ "" ∧ includeShortName config = true then
        item.name.getD "" ++ " : " ++ item.description
      else item.description
    dirs := dirs
    config := config }

/-- The per-sample loop of `process_lane`.  Note the source reassigns the
`config` binding each iteration (`config = _update_config_w_custom(config,
item)`), so the merged configuration accumulates across samples. -/
def processLaneGo (splitter : SplitterFn) (bc_files : BcMap) (base : String)
    (dirs : Dirs) : Config → List LaneInfo → List DispatchRecord
  | _, [] => []
  | config, item :: rest =>
    let config' := update_config_w_custom config item
    let recs :=
      match prep_fastq_files splitter item bc_files dirs config' with
      | some units => units.map (mkRecord base dirs item config')
      | Option.none => []
    recs ++ processLaneGo splitter bc_files base dirs config' rest

/-- The FASTQ-discovery collaborator `get_fastq_files`
(`dirs`, first sample, flowcell name, merged config). -/
abbrev GetFastqFn := Dirs → LaneInfo → String → Config → String × Option String

/-- The demultiplexing collaborator `split_by_barcode`. -/
abbrev DemuxFn := String → Option String → List LaneInfo → String → Dirs → Config → BcMap

/-- The barcode file map computed once per lane by `process_lane`: FASTQ
discovery with the first sample's merged configuration, then demultiplexing
with the unmerged global configuration. -/
def laneBcFiles (get_fastq_files : GetFastqFn) (split_by_barcode : DemuxFn)
    (first : LaneInfo) (lane_items : List LaneInfo) (fc_name fc_date : String)
    (dirs : Dirs) (config : Config) : BcMap :=
  let lane_name := baseLaneName first fc_date fc_name
  let fq := get_fastq_files dirs first fc_name (update_config_w_custom config first)
  split_by_barcode fq.1 fq.2 lane_items lane_name dirs config

/-- `process_lane(lane_items, fc_name, fc_date, dirs, config)`.  `none`
models the IndexError raised by `lane_items[0]` on an empty sample list. -/
def process_lane (get_fastq_files : GetFastqFn) (split_by_barcode : DemuxFn)
    (splitter : SplitterFn) (lane_items : List LaneInfo) (fc_name fc_date : String)
    (dirs : Dirs) (config : Config) : Option (List DispatchRecord) :=
  match lane_items with
  | [] => Option.none
  | first :: _ =>
    let bc := laneBcFiles get_fastq_files split_by_barcode first lane_items fc_name fc_date dirs config
    some (processLaneGo splitter bc (baseLaneName first fc_date fc_name) dirs config lane_items)

/-- `config["algorithm"].get("trim_reads", False)`. -/
def trimReadsOf (config : Config) : PyVal :=
  (dictGet config.algorithm "trim_reads").getD (PyVal.bool false)

/-- `config["algorithm"].get("trimmer", "low_quality")`. -/
def trimmerOf (config : Config) : PyVal :=
  (dictGet config.algorithm "trimmer").getD (PyVal.str "low_quality")

/-- `[x for x in [fastq1, fastq2] if x is not None]`. -/
def toTrimList (fastq1 : String) (fastq2 : Option String) : List String :=
  match fastq2 with
  | some f2 => [fastq1, f2]
  | Option.none => [fastq1]

/-- The signature of the trimming collaborators `brun_trim_fastq` and
`cutadapt_trim`: a list of input files to a list of output files. -/
abbrev TrimFn := List String → Dirs → Config → List String

/-- `trim_lane(fastq1, fastq2, info, lane_name, lane_desc, dirs, config)`.
Pass through untouched when `trim_reads` is falsy; otherwise trim the
non-null files with the selected collaborator (an unknown trimmer value
leaves the files as they are).  `none` models the IndexError of
`out_files[0]` / `out_files[1]` on a collaborator returning too few files
(the inner `none` of an output slot cannot occur at the indices read). -/
def trim_lane (brun_trim_fastq cutadapt_trim : TrimFn) (fastq1 : String)
    (fastq2 : Option String) (info : LaneInfo) (lane_name lane_desc : String)
    (dirs : Dirs) (config : Config) : Option (List DispatchRecord) :=
  if pythonTruthy (trimReadsOf config) = false then
    some [⟨fastq1, fastq2, info, lane_name, lane_desc, dirs, config⟩]
  else
    let trimmer := trimmerOf config
    let to_trim := toTrimList fastq1 fastq2
    let out_files : List (Option String) :=
      if trimmer = PyVal.str "low_quality" then
        (brun_trim_fastq to_trim dirs config).map some
      else if trimmer = PyVal.str "adapter" then
        (cutadapt_trim to_trim dirs config).map some
      else [some fastq1, fastq2]
    match out_files.get? 0 with
    | Option.none => Option.none
    | some Option.none => Option.none
    | some (some f1') =>
      match fastq2 with
      | Option.none => some [⟨f1', Option.none, info, lane_name, lane_desc, dirs, config⟩]
      | some _ =>
        match out_files.get? 1 with
        | Option.none => Option.none
        | some f2' => some [⟨f1', f2', info, lane_name, lane_desc, dirs, config⟩]

/-- `config["algorithm"].get("aligner", None)`. -/
def alignerOf (config : Config) : PyVal :=
  (dictGet config.algorithm "aligner").getD PyVal.none

/-- `config["algorithm"].get("bam_sort")`. -/
def bamSortOf (config : Config) : PyVal :=
  (dictGet config.algorithm "bam_sort").getD PyVal.none

/-- `s.endswith(suffix)`. -/
def strEndsWith (s suffix : String) : Bool :=
  suffix.data.isSuffixOf s.data

/-- `os.path.basename(s)` (keep everything after the last `'/'`). -/
def basenameOf (s : String) : String :=
  String.mk ((s.data.reverse.takeWhile (fun c => c ≠ '/')).reverse)

/-- The stem of `os.path.splitext(s)[0]`: drop the last `'.'` and what
follows it when a dot occurs (plain extension splitting; the hidden-file
corner of `splitext` is not exercised here). -/
def stripExt (s : String) : String :=
  let r := s.data.reverse
  match r.dropWhile (fun c => c ≠ '.') with
  | [] => s
  | _ :: rest => String.mk rest.reverse

/-- `os.path.join(dirs["work"], "{}-sort.bam".format(splitext(basename(fastq1))[0]))`. -/
def sortOutFile (dirs : Dirs) (fastq1 : String) : String :=
  dirs.work ++ "/" ++ stripExt (basenameOf fastq1) ++ "-sort.bam"

/-- The result dictionary of `process_alignment`. -/
structure AlignmentResult where
  fastq : String × Option String
  out_bam : String
  info : LaneInfo
  config : Config
  deriving DecidableEq, Repr

/-- The aligner collaborator `align_to_sort_bam`
`(fastq1, fastq2, genome_build, aligner, lane_name, lane_desc, dirs, config)`. -/
abbrev AlignFn :=
  String → Option String → String → PyVal → String → String → Dirs → Config → String

/-- The Picard sort collaborator: the runner is built from the configuration,
then `run_fn("picard_sort", fastq1, sort_method, out_file)`. -/
abbrev SortFn := Config → String → PyVal → String → String

/-- `process_alignment(fastq1, fastq2, info, lane_name, lane_desc, dirs,
config)`: align when the input exists and an aligner is configured; else
sort or pass through an existing `.bam`; else an empty output path.  The
filesystem existence check is the parameter `fsExists`. -/
def process_alignment (fsExists : String → Bool) (align_to_sort_bam : AlignFn)
    (picard_sort : SortFn) (fastq1 : String) (fastq2 : Option String)
    (info : LaneInfo) (lane_name lane_desc : String) (dirs : Dirs)
    (config : Config) : List AlignmentResult :=
  let aligner := alignerOf config
  let out_bam :=
    if fsExists fastq1 && pythonTruthy aligner then
      align_to_sort_bam fastq1 fastq2 info.genome_build aligner lane_name lane_desc dirs config
    else if fsExists fastq1 && strEndsWith fastq1 ".bam" then
      let sort_method := bamSortOf config
      if pythonTruthy sort_method then
        picard_sort config fastq1 sort_method (sortOutFile dirs fastq1)
      else fastq1
    else ""
  [⟨(fastq1, fastq2), out_bam, info, config⟩]

/-!
Store model of the configuration merge.

`_update_config_w_custom` starts with `config = copy.deepcopy(config)` and
then mutates the copy in place (`config["algorithm"][key] = val`).  To state
that the caller's objects are never mutated, dictionaries are placed in an
explicit store (address = index); values inside a heap dictionary are
primitives or references to other dictionaries, as in the Python heap.
-/

/-- A heap value: a primitive or a reference to a store dictionary. -/
inductive HVal where
  | prim (v : PyVal)
  | ref (a : Nat)
  deriving DecidableEq, Repr

/-- A heap dictionary. -/
abbrev HDict := List (String × HVal)

/-- A store of dictionary objects; an object's address is its index. -/
structure Store where
  mem : List HDict
  deriving DecidableEq, Repr

/-- Dereference an address. -/
def storeGet (st : Store) (a : Nat) : Option HDict := st.mem[a]?

/-- Allocate a fresh dictionary, returning its address. -/
def alloc (st : Store) (d : HDict) : Store × Nat :=
  (⟨st.mem ++ [d]⟩, st.mem.length)

/-- Key lookup in a heap dictionary. -/
def dictGetH : HDict → String → Option HVal
  | [], _ => Option.none
  | kv :: rest, k => if kv.1 = k then some kv.2 else dictGetH rest k

/-- Key assignment in a heap dictionary. -/
def dictSetH : HDict → String → HVal → HDict
  | [], k, v => [(k, v)]
  | kv :: rest, k, v => if kv.1 = k then (k, v) :: rest else kv :: dictSetH rest k v

/-- In-place assignment `obj[k] = v` on the object at address `a`
(no-op on a dangling address). -/
def storeSetKey (st : Store) (a : Nat) (k : String) (v : HVal) : Store :=
  match storeGet st a with
  | some d => ⟨st.mem.set a (dictSetH d k v)⟩
  | Option.none => st

/-- `obj[k]` read through an address. -/
def hGetKey (st : Store) (a : Nat) (k : String) : Option HVal :=
  (storeGet st a).bind (fun d => dictGetH d k)

/-- Deep-copy every value of a dictionary in order, threading the store
(`dc` copies one value). -/
def dcDictGo (dc : Store → HVal → Store × HVal) :
    Store → HDict → Store × HDict
  | st, [] => (st, [])
  | st, kv :: rest =>
    let p := dc st kv.2
    let q := dcDictGo dc p.1 rest
    (q.1, (kv.1, p.2) :: q.2)

/-- `copy.deepcopy` of a heap value, to the given nesting depth: a reference
to a live dictionary is replaced by a reference to a freshly allocated copy
whose values are copied recursively.  The configurations this module
manipulates nest three dictionary levels, so any fuel of at least four
performs the full deep copy. -/
def dcVal : Nat → Store → HVal → Store × HVal
  | 0, st, v => (st, v)
  | fuel + 1, st, v =>
    match v with
    | HVal.prim p => (st, HVal.prim p)
    | HVal.ref b =>
      match storeGet st b with
      | Option.none => (st, HVal.ref b)
      | some db =>
        let p := dcDictGo (dcVal fuel) st db
        let q := alloc p.1 p.2
        (q.1, HVal.ref q.2)

/-- `config["algorithm"][key] = val` on the configuration object at address
`c`: read the `algorithm` reference, then assign in place. -/
def writeAlg (c : Nat) (st : Store) (k : String) (v : HVal) : Store :=
  match hGetKey st c "algorithm" with
  | some (HVal.ref aAlg) => storeSetKey st aAlg k v
  | _ => st

/-- One iteration of the custom-algorithm loop on the configuration object at
address `c`: look the analysis type up in `config["custom_algorithms"]` and,
when the bundle is a truthy dictionary, assign each of its bindings into
`config["algorithm"]`. -/
def applyCustomH (c : Nat) (st : Store) (aty : Option String) : Store :=
  match aty with
  | Option.none => st
  | some name =>
    match hGetKey st c "custom_algorithms" with
    | some (HVal.ref ca) =>
      match hGetKey st ca name with
      | some (HVal.ref bu) =>
        match storeGet st bu with
        | some bdict =>
            if bdict.isEmpty then st
            else bdict.foldl (fun s kv => writeAlg c s kv.1 kv.2) st
        | Option.none => st
      | _ => st
    | _ => st

/-- `_update_config_w_custom` over the store: deep-copy the configuration
object, then perform the in-place overlays on the copy, returning the new
store and the copy's address. -/
def update_config_w_custom_st (fuel : Nat) (st : Store) (c : Nat)
    (info : LaneInfo) : Store × Nat :=
  let p := dcVal fuel st (HVal.ref c)
  let c' := match p.2 with
    | HVal.ref a => a
    | HVal.prim _ => c
  let st1 := (nameRemaps info.analysis).foldl (applyCustomH c') p.1
  let st2 := info.algorithm.foldl
    (fun s kv => writeAlg c' s kv.1 (HVal.prim kv.2)) st1
  (st2, c')

/-- Every reference of the value points below `n`. -/
def refBound (n : Nat) : HVal → Bool
  | HVal.ref b => decide (b < n)
  | HVal.prim _ => true

/-- Every reference of the dictionary points below `n`. -/
def dictRefsBound (n : Nat) (d : HDict) : Bool :=
  d.all (fun kv => refBound n kv.2)

/-- A store without dangling references, as the Python heap. -/
def wfStore (st : Store) : Bool :=
  st.mem.all (dictRefsBound st.mem.length)

/-- All references of the value lie in the address interval `[n, m)`
(verification helper describing freshly copied objects). -/
def refsIn (n m : Nat) : HVal → Prop
  | HVal.ref b => n ≤ b ∧ b < m
  | HVal.prim _ => True

/-- Invariant of the overlay-writing phase: the copied top configuration
dictionary is intact at its address, and every address of the original store
prefix still holds its original object. -/
def WriteInv (n0 : Nat) (st0 : Store) (cAddr : Nat) (dTop : HDict)
    (st : Store) : Prop :=
  storeGet st cAddr = some dTop ∧ ∀ a, a < n0 → storeGet st a = storeGet st0 a

/-! Concrete fixtures used by counterexamples and witnesses. -/

/-- A concrete directory set. -/
def wDirs : Dirs := ⟨"fq", "wk"⟩

/-- An empty global configuration. -/
def wCfg0 : Config := ⟨[], [], Option.none⟩

/-- Sample with barcode `"A"` carrying an algorithm override `x = 7`. -/
def wItemA : LaneInfo := ⟨"1", some "A", "a", Option.none, Option.none, [("x", PyVal.int 7)], "g"⟩

/-- Sample with barcode `"B"` and no overrides. -/
def wItemB : LaneInfo := ⟨"1", some "B", "b", Option.none, Option.none, [], "g"⟩

/-- Sample with the same barcode as `wItemA` but a different description. -/
def wItemB1 : LaneInfo := ⟨"1", some "A", "b", Option.none, Option.none, [], "g"⟩

/-- A constant FASTQ-discovery collaborator. -/
def wGet : GetFastqFn := fun _ _ _ _ => ("f1", some "f2")

/-- A demultiplexer observing barcodes `"A"` and `"B"`. -/
def wDemux : DemuxFn :=
  fun _ _ _ _ _ _ => [(some "A", ("a1", some "a2")), (some "B", ("b1", some "b2"))]

/-- A splitter producing two chunks with indices 0 and 1. -/
def wSplit : SplitterFn :=
  fun f1 f2 _ _ _ _ _ => [(f1, f2, some "0"), (f1, f2, some "1")]

/-- A splitter producing a single chunk with index 0. -/
def wSplit0 : SplitterFn := fun f1 f2 _ _ _ _ _ => [(f1, f2, some "0")]

/-- Sample with underscore-containing barcode `"A_s0"` and no overrides. -/
def wItemU1 : LaneInfo := ⟨"1", some "A_s0", "u1", Option.none, Option.none, [], "g"⟩

/-- Sample with barcode `"A"` whose overrides enable read splitting. -/
def wItemU2 : LaneInfo :=
  ⟨"1", some "A", "u2", Option.none, Option.none, [("align_split_size", PyVal.int 100)], "g"⟩

/-- A demultiplexer observing barcodes `"A_s0"` and `"A"`. -/
def wDemuxU : DemuxFn :=
  fun _ _ _ _ _ _ => [(some "A_s0", ("p1", Option.none)), (some "A", ("q1", Option.none))]

/-- Sample with barcode `"s0"` and no overrides. -/
def wItemS : LaneInfo := ⟨"1", some "s0", "n1", Option.none, Option.none, [], "g"⟩

/-- Sample with a null barcode whose overrides enable read splitting. -/
def wItemN : LaneInfo :=
  ⟨"1", Option.none, "n2", Option.none, Option.none, [("align_split_size", PyVal.int 100)], "g"⟩

/-- A demultiplexer observing barcode `"s0"` and the null barcode. -/
def wDemuxN : DemuxFn :=
  fun _ _ _ _ _ _ => [(some "s0", ("p1", Option.none)), (Option.none, ("q1", Option.none))]

/-- A quality trimmer marking its outputs. -/
def wBrun : TrimFn := fun l _ _ => l.map (fun s => s ++ ".trim")

/-- An adapter trimmer returning its inputs. -/
def wCut : TrimFn := fun l _ _ => l

/-- A constant aligner collaborator. -/
def wAlign : AlignFn := fun _ _ _ _ _ _ _ _ => "ALN"

/-- A constant sort collaborator. -/
def wSort : SortFn := fun _ _ _ _ => "SRT"

/-- Split size present but null under `distributed`, set to 100 under
`algorithm`. -/
def wCfg3 : Config :=
  ⟨[("align_split_size", PyVal.int 100)], [], some [("align_split_size", PyVal.none)]⟩

/-- Global `x = 1`, custom bundle for `variant` setting `x = 2`. -/
def wCfg6 : Config := ⟨[("x", PyVal.int 1)], [("variant", [("x", PyVal.int 2)])], Option.none⟩

/-- A `variant` sample whose own overrides set `x = 3`. -/
def wItem6 : LaneInfo := ⟨"1", some "A", "a", Option.none, some "variant", [("x", PyVal.int 3)], "g"⟩

/-- A configuration with `trim_reads` enabled. -/
def wCfgTrim : Config := ⟨[("trim_reads", PyVal.bool true)], [], Option.none⟩

/-- A one-entry barcode file map for barcode 1. -/
def wBcOne : BcMap := [(some "A", ("r1", some "r2"))]

/-- Sample with barcode `"C"`, which `wDemux` never observes. -/
def wItemC : LaneInfo := ⟨"1", some "C", "c", Option.none, Option.none, [], "g"⟩

/-- A concrete well-formed store: the configuration object at address 0
references its `algorithm` dictionary (address 1) and its
`custom_algorithms` dictionary (address 2), whose `variant` bundle lives at
address 3. -/
def wSt9 : Store :=
  ⟨[[("algorithm", HVal.ref 1), ("custom_algorithms", HVal.ref 2)],
    [("x", HVal.prim (PyVal.int 1))],
    [("variant", HVal.ref 3)],
    [("x", HVal.prim (PyVal.int 2))]]⟩

/-! Theorems. -/

/-- Unfolding `dictGet` over the cons case. -/
theorem dictGet_cons (kv : String × PyVal) (rest : Dict) (k : String) :
    dictGet (kv :: rest) k = if kv.1 = k then some kv.2 else dictGet rest k := rfl

/-- Setting a key then reading it back yields the written value. -/
theorem dictGet_dictSet_self (d : Dict) (k : String) (v : PyVal) :
    dictGet (dictSet d k v) k = some v := by
  induction d with
  | nil => simp [dictSet, dictGet]
  | cons kv rest ih =>
    by_cases h : kv.1 = k
    · simp [dictSet, h, dictGet]
    · simp [dictSet, h, dictGet, ih]

/-- Setting a key leaves other keys unread. -/
theorem dictGet_dictSet_ne (d : Dict) (k x : String) (v : PyVal) (h : x ≠ k) :
    dictGet (dictSet d k v) x = dictGet d x := by
  have hkx : k ≠ x := Ne.symm h
  induction d with
  | nil => simp [dictSet, dictGet, hkx]
  | cons kv rest ih =>
    by_cases hk : kv.1 = k
    · simp [dictSet, hk, dictGet, hkx]
    · simp [dictSet, hk, dictGet, ih]

/-- Overlaying the empty update is the identity. -/
theorem overlay_nil (d : Dict) : overlay d [] = d := rfl

/-- Overlay unfolds one assignment at a time. -/
theorem overlay_cons (d : Dict) (kv : String × PyVal) (u : Dict) :
    overlay d (kv :: u) = overlay (dictSet d kv.1 kv.2) u := rfl

/-- Keys never assigned by the update are unchanged by the overlay. -/
theorem dictGet_overlay_notmem (d u : Dict) (x : String)
    (h : x ∉ u.map Prod.fst) : dictGet (overlay d u) x = dictGet d x := by
  induction u generalizing d with
  | nil => rfl
  | cons kv rest ih =>
    simp only [List.map_cons, List.mem_cons, not_or] at h
    rw [overlay_cons, ih _ h.2]
    exact dictGet_dictSet_ne _ _ _ _ h.1

/-- For an update mapping with distinct keys, the overlay stores exactly the
update's value at each updated key. -/
theorem dictGet_overlay_mem (d u : Dict) (x : String) (v : PyVal)
    (hn : (u.map Prod.fst).Nodup) (h : dictGet u x = some v) :
    dictGet (overlay d u) x = some v := by
  induction u generalizing d with
  | nil => simp [dictGet] at h
  | cons kv rest ih =>
    simp only [List.map_cons, List.nodup_cons] at hn
    rw [dictGet_cons] at h
    by_cases hk : kv.1 = x
    · rw [if_pos hk] at h
      cases h
      rw [overlay_cons, ← hk, dictGet_overlay_notmem _ _ _ hn.1]
      exact dictGet_dictSet_self _ _ _
    · rw [if_neg hk] at h
      rw [overlay_cons]
      exact ih _ hn.2 h

/-- The algorithm mapping of the merged configuration is the successive
overlay of the custom bundles and the sample overrides. -/
theorem update_config_algorithm (config : Config) (info : LaneInfo) :
    (update_config_w_custom config info).algorithm =
      overlay ((nameRemaps info.analysis).foldl
        (fun c aty =>
          match lookupCustom c.custom_algorithms aty with
          | some custom =>
              if custom.isEmpty then c
              else { c with algorithm := overlay c.algorithm custom }
          | Option.none => c) config).algorithm info.algorithm := rfl

/-- C6: whenever the global configuration sets `algorithm.x`, the custom
bundle of a resolved analysis type also sets `x`, and the sample's own
override mapping (with the distinct keys of a real dictionary) sets `x`,
the merged configuration carries the sample-level value: sample overrides
win over custom bundles, which win over the global baseline. -/
theorem c6_sample_override_wins (config : Config) (info : LaneInfo)
    (x : String) (v1 v2 v3 : PyVal) (aty : Option String) (bundle : Dict)
    (hwf : (info.algorithm.map Prod.fst).Nodup)
    (_h1 : dictGet config.algorithm x = some v1)
    (_haty : aty ∈ nameRemaps info.analysis)
    (_hb : lookupCustom config.custom_algorithms aty = some bundle)
    (_h2 : dictGet bundle x = some v2)
    (h3 : dictGet info.algorithm x = some v3) :
    dictGet (update_config_w_custom config info).algorithm x = some v3 := by
  rw [update_config_algorithm]
  exact dictGet_overlay_mem _ _ _ _ hwf h3

/-- Witness for C6 at a concrete configuration and sample. -/
theorem c6_witness :
    dictGet (update_config_w_custom wCfg6 wItem6).algorithm "x" = some (PyVal.int 3) :=
  c6_sample_override_wins wCfg6 wItem6 "x" (PyVal.int 1) (PyVal.int 2) (PyVal.int 3)
    (some "variant") [("x", PyVal.int 2)] (by decide) (by decide) (by decide)
    (by decide) (by decide) (by decide)

/-- C10: `process_lane` on an empty sample list fails (the IndexError of
`lane_items[0]`, modelled as `none`) rather than returning an empty record
list, and on any non-empty list it returns normally. -/
theorem c10_empty_list_fails (g : GetFastqFn) (d : DemuxFn) (s : SplitterFn)
    (fc_name fc_date : String) (dirs : Dirs) (config : Config) :
    process_lane g d s [] fc_name fc_date dirs config = Option.none ∧
    ∀ lane_items : List LaneInfo, lane_items ≠ [] →
      (process_lane g d s lane_items fc_name fc_date dirs config).isSome = true := by
  refine ⟨rfl, ?_⟩
  intro items h
  cases items with
  | nil => exact absurd rfl h
  | cons a t => simp [process_lane]

/-- Witness for C10 at concrete collaborators and samples. -/
theorem c10_witness :
    process_lane wGet wDemux wSplit [] "FC" "D" wDirs wCfg0 = Option.none ∧
    (process_lane wGet wDemux wSplit [wItemA] "FC" "D" wDirs wCfg0).isSome = true := by
  have h := c10_empty_list_fails wGet wDemux wSplit "FC" "D" wDirs wCfg0
  exact ⟨h.1, h.2 [wItemA] (by simp)⟩

/-- C7: when `algorithm.trim_reads` is absent or falsy, `trim_lane` returns
its input record unchanged, for every choice of trimming collaborators (so
no collaborator is invoked). -/
theorem c7_trim_passthrough (fastq1 : String) (fastq2 : Option String)
    (info : LaneInfo) (lane_name lane_desc : String) (dirs : Dirs)
    (config : Config) (h : pythonTruthy (trimReadsOf config) = false) :
    ∀ brun_trim_fastq cutadapt_trim : TrimFn,
      trim_lane brun_trim_fastq cutadapt_trim fastq1 fastq2 info lane_name
          lane_desc dirs config
        = some [⟨fastq1, fastq2, info, lane_name, lane_desc, dirs, config⟩] := by
  intro b c
  simp [trim_lane, h]

/-- Witness for C7: pass-through at a concrete record with trimming unset. -/
theorem c7_witness :
    trim_lane wBrun wCut "f1" (some "f2") wItemA "ln" "ld" wDirs wCfg0
      = some [⟨"f1", some "f2", wItemA, "ln", "ld", wDirs, wCfg0⟩] :=
  c7_trim_passthrough "f1" (some "f2") wItemA "ln" "ld" wDirs wCfg0 (by decide) wBrun wCut

/-- C4: `process_alignment` decides by first match among: missing input file
(empty output), configured aligner (collaborator's result, taking precedence
over a `.bam` input), `.bam` input (sort collaborator's result when
`bam_sort` is truthy, else the input itself), and otherwise empty output. -/
theorem c4_decision_order (fsExists : String → Bool) (align_to_sort_bam : AlignFn)
    (picard_sort : SortFn) (fastq1 : String) (fastq2 : Option String)
    (info : LaneInfo) (lane_name lane_desc : String) (dirs : Dirs)
    (config : Config) :
    (fsExists fastq1 = false →
      process_alignment fsExists align_to_sort_bam picard_sort fastq1 fastq2 info
          lane_name lane_desc dirs config
        = [⟨(fastq1, fastq2), "", info, config⟩]) ∧
    (fsExists fastq1 = true → pythonTruthy (alignerOf config) = true →
      process_alignment fsExists align_to_sort_bam picard_sort fastq1 fastq2 info
          lane_name lane_desc dirs config
        = [⟨(fastq1, fastq2),
            align_to_sort_bam fastq1 fastq2 info.genome_build (alignerOf config)
              lane_name lane_desc dirs config, info, config⟩]) ∧
    (fsExists fastq1 = true → pythonTruthy (alignerOf config) = false →
        strEndsWith fastq1 ".bam" = true →
      (pythonTruthy (bamSortOf config) = true →
        process_alignment fsExists align_to_sort_bam picard_sort fastq1 fastq2 info
            lane_name lane_desc dirs config
          = [⟨(fastq1, fastq2),
              picard_sort config fastq1 (bamSortOf config) (sortOutFile dirs fastq1),
              info, config⟩]) ∧
      (pythonTruthy (bamSortOf config) = false →
        process_alignment fsExists align_to_sort_bam picard_sort fastq1 fastq2 info
            lane_name lane_desc dirs config
          = [⟨(fastq1, fastq2), fastq1, info, config⟩])) ∧
    (fsExists fastq1 = true → pythonTruthy (alignerOf config) = false →
        strEndsWith fastq1 ".bam" = false →
      process_alignment fsExists align_to_sort_bam picard_sort fastq1 fastq2 info
          lane_name lane_desc dirs config
        = [⟨(fastq1, fastq2), "", info, config⟩]) := by
  refine ⟨fun h1 => ?_, fun h1 h2 => ?_,
    fun h1 h2 h3 => ⟨fun h4 => ?_, fun h4 => ?_⟩, fun h1 h2 h3 => ?_⟩ <;>
    simp [process_alignment, h1, *]

/-- Witness for C4: missing input yields an empty output path, and an
existing `.bam` input with neither aligner nor `bam_sort` configured passes
through unchanged. -/
theorem c4_witness :
    process_alignment (fun _ => false) wAlign wSort "in.bam" Option.none wItemA
        "ln" "ld" wDirs wCfg0
      = [⟨("in.bam", Option.none), "", wItemA, wCfg0⟩] ∧
    process_alignment (fun _ => true) wAlign wSort "in.bam" Option.none wItemA
        "ln" "ld" wDirs wCfg0
      = [⟨("in.bam", Option.none), "in.bam", wItemA, wCfg0⟩] := by
  constructor
  · exact (c4_decision_order (fun _ => false) wAlign wSort "in.bam" Option.none
      wItemA "ln" "ld" wDirs wCfg0).1 rfl
  · exact ((c4_decision_order (fun _ => true) wAlign wSort "in.bam" Option.none
      wItemA "ln" "ld" wDirs wCfg0).2.2.1 rfl (by decide) (by decide)).2 (by decide)

/-- C8: with trimming enabled, `trim_lane` depends on the trimming
collaborators only through their value at the list of non-null input files;
a null `fastq2` is preserved as null in every returned record; and with the
default low-quality trimmer a null `fastq2` means the collaborator receives
exactly the one file `[fastq1]`, whose trimmed image becomes the output. -/
theorem c8_trim_nonnull_only (fastq1 : String) (info : LaneInfo)
    (lane_name lane_desc : String) (dirs : Dirs) (config : Config)
    (ht : pythonTruthy (trimReadsOf config) = true) :
    (∀ (fastq2 : Option String) (b b' c c' : TrimFn),
        b (toTrimList fastq1 fastq2) dirs config
          = b' (toTrimList fastq1 fastq2) dirs config →
        c (toTrimList fastq1 fastq2) dirs config
          = c' (toTrimList fastq1 fastq2) dirs config →
        trim_lane b c fastq1 fastq2 info lane_name lane_desc dirs config
          = trim_lane b' c' fastq1 fastq2 info lane_name lane_desc dirs config) ∧
    (∀ (b c : TrimFn) (recs : List DispatchRecord),
        trim_lane b c fastq1 Option.none info lane_name lane_desc dirs config
          = some recs →
        ∀ r ∈ recs, r.fastq2 = Option.none) ∧
    (∀ (b c : TrimFn) (y : String),
        trimmerOf config = PyVal.str "low_quality" →
        b [fastq1] dirs config = [y] →
        trim_lane b c fastq1 Option.none info lane_name lane_desc dirs config
          = some [⟨y, Option.none, info, lane_name, lane_desc, dirs, config⟩]) := by
  refine ⟨?_, ?_, ?_⟩
  · intro f2 b b' c c' hb hc
    simp only [trim_lane, ht]
    rw [hb, hc]
  · intro b c recs h r hr
    by_cases h1 : trimmerOf config = PyVal.str "low_quality"
    · cases hb : b (toTrimList fastq1 Option.none) dirs config with
      | nil => simp [trim_lane, ht, h1, hb] at h
      | cons y ys =>
        simp [trim_lane, ht, h1, hb] at h
        rcases h with ⟨rfl⟩
        simp at hr
        rw [hr]
    · by_cases h2 : trimmerOf config = PyVal.str "adapter"
      · cases hc : c (toTrimList fastq1 Option.none) dirs config with
        | nil => simp [trim_lane, ht, h1, h2, hc] at h
        | cons y ys =>
          simp [trim_lane, ht, h1, h2, hc] at h
          rcases h with ⟨rfl⟩
          simp at hr
          rw [hr]
      · simp [trim_lane, ht, h1, h2] at h
        rcases h with ⟨rfl⟩
        simp at hr
        rw [hr]
  · intro b c y htr hb
    simp [trim_lane, ht, htr, toTrimList, hb]

/-- Witness for C8: a single-end record under the default trimmer. -/
theorem c8_witness :
    trim_lane wBrun wCut "f1" Option.none wItemA "ln" "ld" wDirs wCfgTrim
      = some [⟨"f1.trim", Option.none, wItemA, "ln", "ld", wDirs, wCfgTrim⟩] :=
  (c8_trim_nonnull_only "f1" wItemA "ln" "ld" wDirs wCfgTrim (by decide)).2.2
    wBrun wCut "f1.trim" (by decide) (by decide)

/-- C3 counterexample: with `distributed.align_split_size` present but null
and `algorithm.align_split_size = 100`, the read-split plan does not invoke
the splitter with the algorithm value (as the claim would require); it
returns the single no-split unit, because `dict.get` yields the stored null
for a present key. -/
theorem c3_counterexample :
    prep_fastq_files wSplit wItemA wBcOne wDirs wCfg3
      = some [("r1", some "r2", Option.none)] ∧
    some (wSplit "r1" (some "r2") wItemA (PyVal.int 100) (splitPrepDir wDirs wItemA)
        wDirs wCfg3)
      ≠ prep_fastq_files wSplit wItemA wBcOne wDirs wCfg3 := by
  exact ⟨by decide, by decide⟩

/-- C3 (amended): when the distributed mapping stores `align_split_size`,
that stored value is used even when it is null (disabling splitting despite
any algorithm-level setting); the algorithm-level value is consulted only
when the distributed mapping is absent or lacks the key, and a truthy value
there routes to the splitter; when the resolved size is falsy, exactly one
SplitUnit `(fastq1, fastq2, null)` is produced. -/
theorem c3_split_size_resolution (splitter : SplitterFn) (item : LaneInfo)
    (bc_files : BcMap) (f1 : String) (f2 : Option String) (dirs : Dirs)
    (config : Config)
    (hbc : bcLookup bc_files item.barcode_id = some (f1, f2)) :
    (∀ d : Dict, config.distributed = some d →
        dictGet d "align_split_size" = some PyVal.none →
        prep_fastq_files splitter item bc_files dirs config
          = some [(f1, f2, Option.none)]) ∧
    ((config.distributed = Option.none ∨
        ∃ d : Dict, config.distributed = some d ∧
          dictGet d "align_split_size" = Option.none) →
      ∀ v : PyVal, dictGet config.algorithm "align_split_size" = some v →
        pythonTruthy v = true →
        prep_fastq_files splitter item bc_files dirs config
          = some (splitter f1 f2 item v (splitPrepDir dirs item) dirs config)) ∧
    (pythonTruthy (splitSizeOf config) = false →
      prep_fastq_files splitter item bc_files dirs config
        = some [(f1, f2, Option.none)]) := by
  refine ⟨?_, ?_, ?_⟩
  · intro d hd hnull
    have hs : splitSizeOf config = PyVal.none := by simp [splitSizeOf, hd, hnull]
    simp [prep_fastq_files, hbc, hs, pythonTruthy]
  · intro hdist v hv htr
    have hs : splitSizeOf config = v := by
      rcases hdist with h | ⟨d, hd, hn⟩ <;> simp [splitSizeOf, *]
    simp [prep_fastq_files, hbc, hs, htr]
  · intro hf
    simp [prep_fastq_files, hbc, hf]

/-- Witness for C3 at the concrete present-but-null configuration. -/
theorem c3_witness :
    prep_fastq_files wSplit wItemA wBcOne wDirs wCfg3
      = some [("r1", some "r2", Option.none)] :=
  (c3_split_size_resolution wSplit wItemA wBcOne "r1" (some "r2") wDirs wCfg3
      (by decide)).1 [("align_split_size", PyVal.none)] (by decide) (by decide)

/-- Every record of the per-sample loop carries the configuration obtained by
folding the merge over the sample prefix ending at its own sample: the loop
reassigns `config` each iteration, so overrides accumulate. -/
theorem processLaneGo_config_spec (splitter : SplitterFn) (bc : BcMap)
    (base : String) (dirs : Dirs) :
    ∀ (items : List LaneInfo) (config : Config),
      ∀ r ∈ processLaneGo splitter bc base dirs config items,
        ∃ k, items.get? k = some r.info ∧
          r.config = (items.take (k + 1)).foldl update_config_w_custom config := by
  intro items
  induction items with
  | nil => intro config r hr; simp [processLaneGo] at hr
  | cons item rest ih =>
    intro config r hr
    simp only [processLaneGo] at hr
    rw [List.mem_append] at hr
    rcases hr with hr | hr
    · refine ⟨0, ?_, ?_⟩
      · cases hprep : prep_fastq_files splitter item bc dirs
            (update_config_w_custom config item) with
        | none => simp [hprep] at hr
        | some units =>
          simp only [hprep, List.mem_map] at hr
          obtain ⟨u, _, rfl⟩ := hr
          rfl
      · cases hprep : prep_fastq_files splitter item bc dirs
            (update_config_w_custom config item) with
        | none => simp [hprep] at hr
        | some units =>
          simp only [hprep, List.mem_map] at hr
          obtain ⟨u, _, rfl⟩ := hr
          rfl
    · obtain ⟨k, hk1, hk2⟩ := ih (update_config_w_custom config item) r hr
      exact ⟨k + 1, by simpa using hk1, by simpa using hk2⟩

/-- C1 (amended): the merged configuration carried by a dispatch record for
the sample at position `k` equals the global configuration merged
successively with the overrides of samples `0..k` in input order — it can
depend on the custom bundles and algorithm overrides of earlier samples in
the list, not only on that sample's own. -/
theorem c1_config_accumulates (g : GetFastqFn) (d : DemuxFn) (s : SplitterFn)
    (lane_items : List LaneInfo) (fc_name fc_date : String) (dirs : Dirs)
    (config : Config) (out : List DispatchRecord)
    (h : process_lane g d s lane_items fc_name fc_date dirs config = some out) :
    ∀ r ∈ out, ∃ k, lane_items.get? k = some r.info ∧
      r.config = (lane_items.take (k + 1)).foldl update_config_w_custom config := by
  cases lane_items with
  | nil => simp [process_lane] at h
  | cons first rest =>
    simp only [process_lane, Option.some.injEq] at h
    subst h
    exact processLaneGo_config_spec s _ _ dirs (first :: rest) config

/-- C1 counterexample: with a first sample overriding `x = 7` and a second
sample with no overrides at all, the second sample's dispatch record carries
`algorithm.x = 7`, while merging the global configuration with that sample
alone leaves `x` unset — the merged configuration depends on the earlier
sample. -/
theorem c1_counterexample :
    ((process_lane wGet wDemux wSplit [wItemA, wItemB] "FC" "D" wDirs wCfg0).getD []).map
        (fun r => (r.info.description, dictGet r.config.algorithm "x"))
      = [("a", some (PyVal.int 7)), ("b", some (PyVal.int 7))] ∧
    dictGet (update_config_w_custom wCfg0 wItemB).algorithm "x" = Option.none := by
  exact ⟨by decide, by decide⟩

/-- Witness for C1: the second record's configuration equals the fold of the
merge over both samples. -/
theorem c1_witness :
    ∃ k, [wItemA, wItemB].get? k = some wItemB ∧
      (⟨[("x", PyVal.int 7)], [], Option.none⟩ : Config)
        = ([wItemA, wItemB].take (k + 1)).foldl update_config_w_custom wCfg0 :=
  c1_config_accumulates wGet wDemux wSplit [wItemA, wItemB] "FC" "D" wDirs wCfg0
    [⟨"a1", some "a2", wItemA, "1_D_FC_A", "a", wDirs, ⟨[("x", PyVal.int 7)], [], Option.none⟩⟩,
      ⟨"b1", some "b2", wItemB, "1_D_FC_B", "b", wDirs, ⟨[("x", PyVal.int 7)], [], Option.none⟩⟩]
    (by decide)
    ⟨"b1", some "b2", wItemB, "1_D_FC_B", "b", wDirs, ⟨[("x", PyVal.int 7)], [], Option.none⟩⟩
    (by simp)

/-- Every record of the per-sample loop comes from a sample of the list whose
barcode is present in the barcode file map. -/
theorem processLaneGo_info_spec (splitter : SplitterFn) (bc : BcMap)
    (base : String) (dirs : Dirs) :
    ∀ (items : List LaneInfo) (config : Config),
      ∀ r ∈ processLaneGo splitter bc base dirs config items,
        (bcLookup bc r.info.barcode_id).isSome = true ∧ r.info ∈ items := by
  intro items
  induction items with
  | nil => intro config r hr; simp [processLaneGo] at hr
  | cons item rest ih =>
    intro config r hr
    simp only [processLaneGo] at hr
    rw [List.mem_append] at hr
    rcases hr with hr | hr
    · cases hprep : prep_fastq_files splitter item bc dirs
          (update_config_w_custom config item) with
      | none => simp [hprep] at hr
      | some units =>
        simp only [hprep, List.mem_map] at hr
        obtain ⟨u, _, rfl⟩ := hr
        have hbc : (bcLookup bc item.barcode_id).isSome = true := by
          by_contra hn
          rw [Option.not_isSome_iff_eq_none] at hn
          simp [prep_fastq_files, hn] at hprep
        exact ⟨hbc, by simp [mkRecord]⟩
    · obtain ⟨h1, h2⟩ := ih (update_config_w_custom config item) r hr
      exact ⟨h1, by simp [h2]⟩

/-- The output of the per-sample loop is the in-order concatenation of one
record block per sample, each block holding only that sample's records. -/
theorem processLaneGo_blocks (splitter : SplitterFn) (bc : BcMap)
    (base : String) (dirs : Dirs) :
    ∀ (items : List LaneInfo) (config : Config),
      ∃ blocks : List (List DispatchRecord),
        processLaneGo splitter bc base dirs config items = blocks.flatten ∧
        blocks.length = items.length ∧
        ∀ (i : Nat) (hib : i < blocks.length) (hi : i < items.length),
          ∀ r ∈ blocks.get ⟨i, hib⟩, r.info = items.get ⟨i, hi⟩ := by
  intro items
  induction items with
  | nil =>
    intro config
    refine ⟨[], rfl, rfl, ?_⟩
    intro i hib
    simp at hib
  | cons item rest ih =>
    intro config
    obtain ⟨blocks, h1, h2, h3⟩ := ih (update_config_w_custom config item)
    refine ⟨(match prep_fastq_files splitter item bc dirs
        (update_config_w_custom config item) with
      | some units =>
          units.map (mkRecord base dirs item (update_config_w_custom config item))
      | Option.none => []) :: blocks, ?_, ?_, ?_⟩
    · simp only [processLaneGo, List.flatten_cons]
      rw [h1]
    · simp [h2]
    · intro i hib hi r hr
      cases i with
      | zero =>
        simp only [List.get] at hr ⊢
        cases hprep : prep_fastq_files splitter item bc dirs
            (update_config_w_custom config item) with
        | none => rw [hprep] at hr; simp at hr
        | some units =>
          rw [hprep] at hr
          rw [List.mem_map] at hr
          obtain ⟨u, -, rfl⟩ := hr
          rfl
      | succ j =>
        exact h3 j (by simpa using hib) (by simpa using hi) r hr

/-- C5: a sample whose barcode is absent from the barcode file map
contributes zero dispatch records, and the call still returns normally: on a
non-empty sample list `process_lane` produces a record list in which every
record's sample has its barcode in the map, filtering for an absent sample
yields nothing, and the output is the in-order concatenation of one
(possibly empty) block per sample in input order. -/
theorem c5_absent_barcode_skipped (g : GetFastqFn) (d : DemuxFn) (s : SplitterFn)
    (lane_items : List LaneInfo) (fc_name fc_date : String) (dirs : Dirs)
    (config : Config) (first : LaneInfo) (rest : List LaneInfo)
    (hne : lane_items = first :: rest) :
    ∃ out, process_lane g d s lane_items fc_name fc_date dirs config = some out ∧
      (∀ r ∈ out,
        (bcLookup (laneBcFiles g d first lane_items fc_name fc_date dirs config)
          r.info.barcode_id).isSome = true) ∧
      (∀ item ∈ lane_items,
        bcLookup (laneBcFiles g d first lane_items fc_name fc_date dirs config)
            item.barcode_id = Option.none →
        out.filter (fun r => decide (r.info = item)) = []) ∧
      ∃ blocks : List (List DispatchRecord),
        out = blocks.flatten ∧ blocks.length = lane_items.length ∧
        ∀ (i : Nat) (hib : i < blocks.length) (hi : i < lane_items.length),
          ∀ r ∈ blocks.get ⟨i, hib⟩, r.info = lane_items.get ⟨i, hi⟩ := by
  subst hne
  refine ⟨_, rfl, ?_, ?_, ?_⟩
  · intro r hr
    exact (processLaneGo_info_spec s _ _ dirs (first :: rest) config r hr).1
  · intro item _ habs
    rw [List.filter_eq_nil_iff]
    intro r hr
    have h1 := (processLaneGo_info_spec s _ _ dirs (first :: rest) config r hr).1
    simp only [decide_eq_true_eq]
    intro heq
    rw [heq, habs] at h1
    simp at h1
  · exact processLaneGo_blocks s _ _ dirs (first :: rest) config

/-- Witness for C5: a declared sample with an unobserved barcode yields no
records at a concrete call. -/
theorem c5_witness :
    ((process_lane wGet wDemux wSplit [wItemA, wItemC] "FC" "D" wDirs wCfg0).getD []).filter
        (fun r => decide (r.info = wItemC)) = [] := by
  obtain ⟨out, hout, -, h2, -⟩ := c5_absent_barcode_skipped wGet wDemux wSplit
    [wItemA, wItemC] "FC" "D" wDirs wCfg0 wItemA [wItemC] rfl
  rw [hout]
  simp only [Option.getD_some]
  exact h2 wItemC (by simp) (by decide)

/-- Splitting determinism: a list that is an underscore-free block followed
by a tail that is empty or starts with an underscore decomposes uniquely. -/
theorem underscore_split : ∀ (a b x y : List Char),
    (∀ c ∈ a, c ≠ '_') → (∀ c ∈ b, c ≠ '_') →
    (x = [] ∨ ∃ t, x = '_' :: t) → (y = [] ∨ ∃ t, y = '_' :: t) →
    a ++ x = b ++ y → a = b ∧ x = y := by
  intro a
  induction a with
  | nil =>
    intro b x y _ hb hx _ h
    cases b with
    | nil => simpa using h
    | cons c b' =>
      rcases hx with rfl | ⟨t, rfl⟩
      · simp at h
      · rw [List.nil_append, List.cons_append, List.cons.injEq] at h
        exact absurd h.1.symm (hb c (by simp))
  | cons c a' ih =>
    intro b x y ha hb hx hy h
    cases b with
    | nil =>
      rcases hy with rfl | ⟨t, rfl⟩
      · simp at h
      · rw [List.nil_append, List.cons_append, List.cons.injEq] at h
        exact absurd h.1 (ha c (by simp))
    | cons d b' =>
      rw [List.cons_append, List.cons_append, List.cons.injEq] at h
      obtain ⟨rfl, h2⟩ := h
      obtain ⟨h3, h4⟩ := ih b' x y (fun e he => ha e (by simp [he]))
        (fun e he => hb e (by simp [he])) hx hy h2
      exact ⟨by rw [h3], h4⟩

/-- Strings with equal character data are equal. -/
theorem string_data_inj (s t : String) (h : s.data = t.data) : s = t := by
  cases s
  cases t
  cases h
  rfl

/-- Characters of the synthesized suffix for a non-null barcode: an
underscore, the barcode's characters, then the null-barcode suffix of the
split index. -/
theorem laneSuffix_some_data (b : String) (e : Option String) :
    (laneSuffix (some b) e).data
      = '_' :: (b.data ++ (laneSuffix Option.none e).data) := by
  cases e <;> rfl

/-- The suffix of a null barcode is empty or starts with an underscore. -/
theorem laneSuffix_none_tail (e : Option String) :
    (laneSuffix Option.none e).data = [] ∨
    ∃ t, (laneSuffix Option.none e).data = '_' :: t := by
  cases e with
  | none => exact Or.inl rfl
  | some e' => exact Or.inr ⟨'s' :: e'.data, rfl⟩

/-- The null-barcode suffix determines the split index. -/
theorem laneSuffix_tail_inj (e1 e2 : Option String)
    (h : (laneSuffix Option.none e1).data = (laneSuffix Option.none e2).data) :
    e1 = e2 := by
  rcases e1 with _ | e1 <;> rcases e2 with _ | e2
  · rfl
  · have h' : ([] : List Char) = '_' :: 's' :: e2.data := h
    simp at h'
  · have h' : ('_' :: 's' :: e1.data : List Char) = [] := h
    simp at h'
  · have h' : ('_' :: 's' :: e1.data : List Char) = '_' :: 's' :: e2.data := h
    rw [List.cons.injEq, List.cons.injEq] at h'
    rw [string_data_inj e1 e2 h'.2.2]

/-- The suffix of an underscore-free non-null barcode determines the barcode
and the split index (for arbitrary split-index strings). -/
theorem laneSuffix_inj (b1 b2 : String) (e1 e2 : Option String)
    (hb1 : ∀ c ∈ b1.data, c ≠ '_') (hb2 : ∀ c ∈ b2.data, c ≠ '_')
    (h : (laneSuffix (some b1) e1).data = (laneSuffix (some b2) e2).data) :
    b1 = b2 ∧ e1 = e2 := by
  rw [laneSuffix_some_data, laneSuffix_some_data, List.cons.injEq] at h
  obtain ⟨-, h⟩ := h
  obtain ⟨hb, ht⟩ := underscore_split b1.data b2.data
    (laneSuffix Option.none e1).data (laneSuffix Option.none e2).data
    hb1 hb2 (laneSuffix_none_tail e1) (laneSuffix_none_tail e2) h
  exact ⟨string_data_inj b1 b2 hb, laneSuffix_tail_inj e1 e2 ht⟩

/-- A synthesized lane name with an underscore-free non-null barcode
determines the barcode and split index appended to the shared base name. -/
theorem laneName_inj (base : String) (b1 b2 : String) (e1 e2 : Option String)
    (hb1 : ∀ c ∈ b1.data, c ≠ '_') (hb2 : ∀ c ∈ b2.data, c ≠ '_')
    (h : base ++ laneSuffix (some b1) e1 = base ++ laneSuffix (some b2) e2) :
    b1 = b2 ∧ e1 = e2 := by
  have hd := congrArg String.data h
  rw [String.data_append, String.data_append] at hd
  exact laneSuffix_inj b1 b2 e1 e2 hb1 hb2 (List.append_cancel_left hd)

/-- Every record name produced by the loop is the base name with the suffix
of one of the samples' barcodes and some split index. -/
theorem processLaneGo_name_shape (splitter : SplitterFn) (bc : BcMap)
    (base : String) (dirs : Dirs) :
    ∀ (items : List LaneInfo) (config : Config),
      ∀ r ∈ processLaneGo splitter bc base dirs config items,
        ∃ item, item ∈ items ∧ ∃ e : Option String,
          r.laneName = base ++ laneSuffix item.barcode_id e := by
  intro items
  induction items with
  | nil => intro config r hr; simp [processLaneGo] at hr
  | cons item rest ih =>
    intro config r hr
    simp only [processLaneGo] at hr
    rw [List.mem_append] at hr
    rcases hr with hr | hr
    · cases hprep : prep_fastq_files splitter item bc dirs
          (update_config_w_custom config item) with
      | none => simp [hprep] at hr
      | some units =>
        simp only [hprep, List.mem_map] at hr
        obtain ⟨u, -, rfl⟩ := hr
        exact ⟨item, by simp, u.2.2, rfl⟩
    · obtain ⟨item', hmem, e, hname⟩ := ih (update_config_w_custom config item) r hr
      exact ⟨item', by simp [hmem], e, hname⟩

/-- When the splitting collaborator always produces pairwise-distinct split
indices, every split plan of `_prep_fastq_files` has pairwise-distinct
indices. -/
theorem prep_exts_pairwise (splitter : SplitterFn) (item : LaneInfo)
    (bc : BcMap) (dirs : Dirs) (config : Config) (units : List SplitUnit)
    (hsplit : ∀ (f1 : String) (f2 : Option String) (it : LaneInfo) (sz : PyVal)
      (sd : String) (dirs' : Dirs) (cfg' : Config),
      ((splitter f1 f2 it sz sd dirs' cfg').map (fun u => u.2.2)).Pairwise (· ≠ ·))
    (h : prep_fastq_files splitter item bc dirs config = some units) :
    (units.map (fun u => u.2.2)).Pairwise (· ≠ ·) := by
  cases hbc : bcLookup bc item.barcode_id with
  | none => simp [prep_fastq_files, hbc] at h
  | some fp =>
    simp only [prep_fastq_files, hbc, Option.map_some', Option.some.injEq] at h
    subst h
    by_cases htr : pythonTruthy (splitSizeOf config) = true
    · simp only [htr, if_true]
      exact hsplit _ _ _ _ _ _ _
    · simp only [Bool.not_eq_true] at htr
      simp [htr]

/-- Lane-name pairwise distinctness for the per-sample loop: every sample's
barcode is non-null and underscore-free, barcodes are pairwise distinct, and
the splitter emits pairwise-distinct indices. -/
theorem processLaneGo_names_pairwise (splitter : SplitterFn) (bc : BcMap)
    (base : String) (dirs : Dirs)
    (hsplit : ∀ (f1 : String) (f2 : Option String) (it : LaneInfo) (sz : PyVal)
      (sd : String) (dirs' : Dirs) (cfg' : Config),
      ((splitter f1 f2 it sz sd dirs' cfg').map (fun u => u.2.2)).Pairwise (· ≠ ·)) :
    ∀ (items : List LaneInfo) (config : Config),
      (∀ item ∈ items, ∃ b : String,
        item.barcode_id = some b ∧ ∀ c ∈ b.data, c ≠ '_') →
      (items.map (fun i => i.barcode_id)).Pairwise (· ≠ ·) →
      ((processLaneGo splitter bc base dirs config items).map
          (fun r => r.laneName)).Pairwise (· ≠ ·) := by
  intro items
  induction items with
  | nil => intro config _ _; simp [processLaneGo]
  | cons item rest ih =>
    intro config hgood hbar
    rw [List.map_cons, List.pairwise_cons] at hbar
    obtain ⟨hhead, htail⟩ := hbar
    obtain ⟨b, hbeq, hbu⟩ := hgood item (by simp)
    simp only [processLaneGo]
    rw [List.map_append, List.pairwise_append]
    refine ⟨?_, ih (update_config_w_custom config item)
      (fun it hit => hgood it (by simp [hit])) htail, ?_⟩
    · cases hprep : prep_fastq_files splitter item bc dirs
          (update_config_w_custom config item) with
      | none => simp
      | some units =>
        have hexts := prep_exts_pairwise splitter item bc dirs _ units hsplit hprep
        rw [List.pairwise_map] at hexts
        rw [List.map_map, List.pairwise_map]
        refine hexts.imp ?_
        intro u v huv heq
        have heq2 : base ++ laneSuffix item.barcode_id u.2.2
            = base ++ laneSuffix item.barcode_id v.2.2 := heq
        rw [hbeq] at heq2
        exact huv (laneName_inj base b b u.2.2 v.2.2 hbu hbu heq2).2
    · intro n1 hn1 n2 hn2
      have hshape1 : ∃ e1 : Option String,
          n1 = base ++ laneSuffix item.barcode_id e1 := by
        cases hprep : prep_fastq_files splitter item bc dirs
            (update_config_w_custom config item) with
        | none => simp [hprep] at hn1
        | some units =>
          simp only [hprep, List.map_map, List.mem_map] at hn1
          obtain ⟨u, -, rfl⟩ := hn1
          exact ⟨u.2.2, rfl⟩
      obtain ⟨e1, rfl⟩ := hshape1
      rw [List.mem_map] at hn2
      obtain ⟨r2, hr2, rfl⟩ := hn2
      obtain ⟨item', hmem', e2, hname2⟩ := processLaneGo_name_shape splitter bc
        base dirs rest (update_config_w_custom config item) r2 hr2
      obtain ⟨b', hbeq', hbu'⟩ := hgood item' (by simp [hmem'])
      rw [hname2, hbeq', hbeq]
      intro heq
      have hbb := (laneName_inj base b b' e1 e2 hbu hbu' heq).1
      apply hhead item'.barcode_id (List.mem_map_of_mem _ hmem')
      rw [hbeq, hbeq', hbb]

/-- C2 (amended): lane-name uniqueness holds for every `process_lane` call
in which every sample's barcode_id is non-null and its string rendering
contains no underscore, the barcode_ids are pairwise distinct, and the
splitting collaborator always emits chunks with pairwise-distinct split
indices.  Each precondition is forced by a counterexample: duplicate
barcodes, an underscore-containing barcode against a split chunk, or a null
barcode against a barcode starting with `s` all produce colliding names. -/
theorem c2_lane_names_unique (g : GetFastqFn) (d : DemuxFn) (s : SplitterFn)
    (lane_items : List LaneInfo) (fc_name fc_date : String) (dirs : Dirs)
    (config : Config) (out : List DispatchRecord)
    (hgood : ∀ item ∈ lane_items, ∃ b : String,
      item.barcode_id = some b ∧ ∀ c ∈ b.data, c ≠ '_')
    (hbar : (lane_items.map (fun i => i.barcode_id)).Pairwise (· ≠ ·))
    (hsplit : ∀ (f1 : String) (f2 : Option String) (it : LaneInfo) (sz : PyVal)
      (sd : String) (dirs' : Dirs) (cfg' : Config),
      ((s f1 f2 it sz sd dirs' cfg').map (fun u => u.2.2)).Pairwise (· ≠ ·))
    (h : process_lane g d s lane_items fc_name fc_date dirs config = some out) :
    (out.map (fun r => r.laneName)).Pairwise (· ≠ ·) := by
  cases lane_items with
  | nil => simp [process_lane] at h
  | cons first rest =>
    simp only [process_lane, Option.some.injEq] at h
    subst h
    exact processLaneGo_names_pairwise s _ _ dirs hsplit (first :: rest) config
      hgood hbar

/-- C2 counterexample: lane-name uniqueness fails without preconditions on
the barcodes.  Three failure modes, each with two distinct records (their
descriptions differ) sharing one synthesized lane name: two samples with the
same barcode `"A"`; distinct barcodes `"A_s0"` and `"A"` where the second
sample's split chunk 0 collides with the first's plain name; and a barcode
`"s0"` colliding with a null-barcode sample's split chunk 0. -/
theorem c2_counterexample :
    (((process_lane wGet wDemux wSplit [wItemA, wItemB1] "FC" "D" wDirs wCfg0).getD []).map
        (fun r => (r.laneName, r.laneDesc))
      = [("1_D_FC_A", "a"), ("1_D_FC_A", "b")]) ∧
    (((process_lane wGet wDemuxU wSplit0 [wItemU1, wItemU2] "FC" "D" wDirs wCfg0).getD []).map
        (fun r => (r.laneName, r.laneDesc))
      = [("1_D_FC_A_s0", "u1"), ("1_D_FC_A_s0", "u2")]) ∧
    (((process_lane wGet wDemuxN wSplit0 [wItemS, wItemN] "FC" "D" wDirs wCfg0).getD []).map
        (fun r => (r.laneName, r.laneDesc))
      = [("1_D_FC_s0", "n1"), ("1_D_FC_s0", "n2")]) := by
  exact ⟨by decide, by decide, by decide⟩

/-- Witness for C2 at a concrete call with distinct, underscore-free,
non-null barcodes. -/
theorem c2_witness :
    (["1_D_FC_A", "1_D_FC_B"] : List String).Pairwise (· ≠ ·) :=
  c2_lane_names_unique wGet wDemux wSplit [wItemA, wItemB] "FC" "D" wDirs wCfg0
    [⟨"a1", some "a2", wItemA, "1_D_FC_A", "a", wDirs, ⟨[("x", PyVal.int 7)], [], Option.none⟩⟩,
      ⟨"b1", some "b2", wItemB, "1_D_FC_B", "b", wDirs, ⟨[("x", PyVal.int 7)], [], Option.none⟩⟩]
    (by
      intro item hit
      simp only [List.mem_cons, List.not_mem_nil, or_false] at hit
      rcases hit with rfl | rfl
      · exact ⟨"A", rfl, by decide⟩
      · exact ⟨"B", rfl, by decide⟩)
    (by decide)
    (fun f1 f2 it sz sd dirs' cfg' => by simp [wSplit, List.pairwise_cons])
    (by decide)

/-- Allocation grows the store by one object. -/
theorem alloc_len (st : Store) (d : HDict) :
    (alloc st d).1.mem.length = st.mem.length + 1 := by
  simp [alloc]

/-- Allocation leaves existing addresses untouched. -/
theorem alloc_get_lt (st : Store) (d : HDict) (a : Nat) (h : a < st.mem.length) :
    storeGet (alloc st d).1 a = storeGet st a := by
  show (st.mem ++ [d])[a]? = st.mem[a]?
  exact List.getElem?_append_left h

/-- The allocated address holds the allocated object. -/
theorem alloc_get_self (st : Store) (d : HDict) :
    storeGet (alloc st d).1 st.mem.length = some d := by
  show (st.mem ++ [d])[st.mem.length]? = some d
  exact List.getElem?_concat_length st.mem d

/-- In-place assignment does not change the store size. -/
theorem storeSetKey_len (st : Store) (a : Nat) (k : String) (v : HVal) :
    (storeSetKey st a k v).mem.length = st.mem.length := by
  unfold storeSetKey
  cases hg : storeGet st a with
  | none => rfl
  | some d => simp [List.length_set]

/-- In-place assignment touches only the written address. -/
theorem storeSetKey_get_ne (st : Store) (a : Nat) (k : String) (v : HVal)
    (b : Nat) (h : b ≠ a) :
    storeGet (storeSetKey st a k v) b = storeGet st b := by
  unfold storeSetKey
  cases hg : storeGet st a with
  | none => rfl
  | some d =>
    show (st.mem.set a (dictSetH d k v))[b]? = st.mem[b]?
    exact List.getElem?_set_ne (Ne.symm h)

/-- A successful dictionary lookup is a binding of the dictionary. -/
theorem dictGetH_mem : ∀ (d : HDict) (k : String) (v : HVal),
    dictGetH d k = some v → ∃ key, (key, v) ∈ d := by
  intro d
  induction d with
  | nil => intro k v h; simp [dictGetH] at h
  | cons kv rest ih =>
    intro k v h
    rw [show dictGetH (kv :: rest) k
      = if kv.1 = k then some kv.2 else dictGetH rest k from rfl] at h
    by_cases hk : kv.1 = k
    · rw [if_pos hk] at h
      cases h
      exact ⟨kv.1, by simp⟩
    · rw [if_neg hk] at h
      obtain ⟨key, hmem⟩ := ih k v h
      exact ⟨key, by simp [hmem]⟩

/-- Reference bounds are monotone in the bound. -/
theorem refBound_mono (n m : Nat) (v : HVal) (h : refBound n v = true)
    (hnm : n ≤ m) : refBound m v = true := by
  cases v with
  | prim p => rfl
  | ref b =>
    simp only [refBound, decide_eq_true_eq] at h ⊢
    omega

/-- Dictionary reference bounds are monotone in the bound. -/
theorem dictRefsBound_mono (n m : Nat) (d : HDict)
    (h : dictRefsBound n d = true) (hnm : n ≤ m) : dictRefsBound m d = true := by
  simp only [dictRefsBound, List.all_eq_true] at h ⊢
  intro kv hkv
  exact refBound_mono n m kv.2 (h kv hkv) hnm

/-- Reference intervals widen. -/
theorem refsIn_mono (n m n' m' : Nat) (v : HVal) (h : refsIn n m v)
    (hn : n' ≤ n) (hm : m ≤ m') : refsIn n' m' v := by
  cases v with
  | prim p => trivial
  | ref b =>
    obtain ⟨h1, h2⟩ := h
    exact ⟨by omega, by omega⟩

/-- A well-formed store only holds dictionaries with in-range references. -/
theorem wfStore_get (st : Store) (hwf : wfStore st = true) (a : Nat) (d : HDict)
    (h : storeGet st a = some d) : dictRefsBound st.mem.length d = true := by
  rw [wfStore, List.all_eq_true] at hwf
  exact hwf d (List.getElem?_mem h)

/-- Copying a dictionary's values never shrinks the store. -/
theorem dcDictGo_mono (dc : Store → HVal → Store × HVal)
    (H : ∀ st v, st.mem.length ≤ (dc st v).1.mem.length) :
    ∀ (d : HDict) (st : Store),
      st.mem.length ≤ (dcDictGo dc st d).1.mem.length := by
  intro d
  induction d with
  | nil => intro st; exact Nat.le_refl _
  | cons kv rest ih =>
    intro st
    exact Nat.le_trans (H st kv.2) (ih (dc st kv.2).1)

/-- Copying a dictionary's values leaves existing addresses untouched. -/
theorem dcDictGo_pres (dc : Store → HVal → Store × HVal)
    (Hm : ∀ st v, st.mem.length ≤ (dc st v).1.mem.length)
    (Hp : ∀ st v a, a < st.mem.length → storeGet (dc st v).1 a = storeGet st a) :
    ∀ (d : HDict) (st : Store) (a : Nat), a < st.mem.length →
      storeGet (dcDictGo dc st d).1 a = storeGet st a := by
  intro d
  induction d with
  | nil => intro st a _; rfl
  | cons kv rest ih =>
    intro st a ha
    calc storeGet (dcDictGo dc st (kv :: rest)).1 a
        = storeGet (dcDictGo dc (dc st kv.2).1 rest).1 a := rfl
      _ = storeGet (dc st kv.2).1 a :=
          ih (dc st kv.2).1 a (Nat.lt_of_lt_of_le ha (Hm st kv.2))
      _ = storeGet st a := Hp st kv.2 a ha

/-- The deep copy never shrinks the store. -/
theorem dcVal_mono : ∀ (fuel : Nat) (st : Store) (v : HVal),
    st.mem.length ≤ (dcVal fuel st v).1.mem.length := by
  intro fuel
  induction fuel with
  | zero => intro st v; exact Nat.le_refl _
  | succ f ih =>
    intro st v
    cases v with
    | prim p => exact Nat.le_refl _
    | ref b =>
      cases hg : storeGet st b with
      | none => simp [dcVal, hg]
      | some db =>
        have heq : (dcVal (f + 1) st (HVal.ref b)).1
            = (alloc (dcDictGo (dcVal f) st db).1
                (dcDictGo (dcVal f) st db).2).1 := by
          simp [dcVal, hg]
        rw [heq, alloc_len]
        exact Nat.le_trans (dcDictGo_mono (dcVal f) ih db st) (Nat.le_succ _)

/-- The deep copy leaves existing addresses untouched. -/
theorem dcVal_pres : ∀ (fuel : Nat) (st : Store) (v : HVal) (a : Nat),
    a < st.mem.length → storeGet (dcVal fuel st v).1 a = storeGet st a := by
  intro fuel
  induction fuel with
  | zero => intro st v a _; rfl
  | succ f ih =>
    intro st v a ha
    cases v with
    | prim p => rfl
    | ref b =>
      cases hg : storeGet st b with
      | none => simp [dcVal, hg]
      | some db =>
        have heq : (dcVal (f + 1) st (HVal.ref b)).1
            = (alloc (dcDictGo (dcVal f) st db).1
                (dcDictGo (dcVal f) st db).2).1 := by
          simp [dcVal, hg]
        rw [heq, alloc_get_lt _ _ a
          (Nat.lt_of_lt_of_le ha (dcDictGo_mono (dcVal f) (dcVal_mono f) db st))]
        exact dcDictGo_pres (dcVal f) (dcVal_mono f) ih db st a ha

/-- With positive fuel, copying a value with in-range references yields a
primitive or a reference to a freshly allocated object. -/
theorem dcVal_fresh : ∀ (fuel : Nat) (st : Store) (v : HVal),
    refBound st.mem.length v = true →
    refsIn st.mem.length (dcVal (fuel + 1) st v).1.mem.length
      (dcVal (fuel + 1) st v).2 := by
  intro fuel st v hb
  cases v with
  | prim p => trivial
  | ref b =>
    have hlt : b < st.mem.length := by
      simpa [refBound] using hb
    have hsome : storeGet st b = some st.mem[b] := List.getElem?_eq_getElem hlt
    have heq1 : dcVal (fuel + 1) st (HVal.ref b)
        = ((alloc (dcDictGo (dcVal fuel) st st.mem[b]).1
              (dcDictGo (dcVal fuel) st st.mem[b]).2).1,
           HVal.ref (alloc (dcDictGo (dcVal fuel) st st.mem[b]).1
              (dcDictGo (dcVal fuel) st st.mem[b]).2).2) := by
      simp [dcVal, hsome]
    rw [heq1]
    refine ⟨?_, ?_⟩
    · exact dcDictGo_mono (dcVal fuel) (dcVal_mono fuel) st.mem[b] st
    · rw [alloc_len]
      exact Nat.lt_succ_self _

/-- All values of a copied dictionary are primitives or references into the
freshly allocated region. -/
theorem dcDictGo_fresh (dc : Store → HVal → Store × HVal)
    (Hm : ∀ st v, st.mem.length ≤ (dc st v).1.mem.length)
    (Hf : ∀ st v, refBound st.mem.length v = true →
      refsIn st.mem.length (dc st v).1.mem.length (dc st v).2) :
    ∀ (d : HDict) (st : Store), dictRefsBound st.mem.length d = true →
      ∀ kv ∈ (dcDictGo dc st d).2,
        refsIn st.mem.length (dcDictGo dc st d).1.mem.length kv.2 := by
  intro d
  induction d with
  | nil => intro st _ kv hkv; simp [dcDictGo] at hkv
  | cons kv0 rest ih =>
    intro st hd kv hkv
    have hd' : refBound st.mem.length kv0.2 = true ∧
        dictRefsBound st.mem.length rest = true := by
      simpa [dictRefsBound] using hd
    have hkv' : kv = (kv0.1, (dc st kv0.2).2) ∨
        kv ∈ (dcDictGo dc (dc st kv0.2).1 rest).2 := by
      simpa [dcDictGo] using hkv
    rcases hkv' with rfl | hmem
    · exact refsIn_mono _ _ _ _ _ (Hf st kv0.2 hd'.1) (Nat.le_refl _)
        (dcDictGo_mono dc Hm rest (dc st kv0.2).1)
    · have hrest := ih (dc st kv0.2).1
        (dictRefsBound_mono _ _ rest hd'.2 (Hm st kv0.2)) kv hmem
      exact refsIn_mono _ _ _ _ _ hrest (Hm st kv0.2) (Nat.le_refl _)

/-- A fold preserves any invariant its step preserves. -/
theorem foldl_inv {α : Type} (P : Store → Prop) (g : Store → α → Store)
    (hg : ∀ st x, P st → P (g st x)) :
    ∀ (l : List α) (st : Store), P st → P (l.foldl g st) := by
  intro l
  induction l with
  | nil => intro st h; exact h
  | cons x xs ih => intro st h; exact ih (g st x) (hg st x h)

/-- One in-place overlay assignment preserves the writing-phase invariant:
it targets the copy's `algorithm` dictionary, which lies in the fresh
region. -/
theorem writeAlg_inv (n0 : Nat) (st0 : Store) (cAddr : Nat) (dTop : HDict)
    (hd : ∀ kv ∈ dTop, refsIn n0 cAddr kv.2) (st : Store) (k : String)
    (v : HVal) (hinv : WriteInv n0 st0 cAddr dTop st) :
    WriteInv n0 st0 cAddr dTop (writeAlg cAddr st k v) := by
  obtain ⟨h1, h2⟩ := hinv
  have hget : hGetKey st cAddr "algorithm" = dictGetH dTop "algorithm" := by
    unfold hGetKey
    rw [h1]
    rfl
  unfold writeAlg
  rw [hget]
  cases hga : dictGetH dTop "algorithm" with
  | none => exact ⟨h1, h2⟩
  | some v0 =>
    cases v0 with
    | prim p => exact ⟨h1, h2⟩
    | ref aAlg =>
      obtain ⟨key, hmem⟩ := dictGetH_mem dTop "algorithm" (HVal.ref aAlg) hga
      have hrange : n0 ≤ aAlg ∧ aAlg < cAddr := hd (key, HVal.ref aAlg) hmem
      refine ⟨?_, ?_⟩
      · rw [storeSetKey_get_ne st aAlg k v cAddr (by omega)]
        exact h1
      · intro a ha
        rw [storeSetKey_get_ne st aAlg k v a (by omega)]
        exact h2 a ha

/-- A custom-algorithm loop iteration either leaves the store unchanged or
folds overlay assignments of some bundle dictionary over it. -/
theorem applyCustomH_cases (cAddr : Nat) (st : Store) (aty : Option String) :
    applyCustomH cAddr st aty = st ∨
    ∃ bdict : HDict, applyCustomH cAddr st aty
      = bdict.foldl (fun s kv => writeAlg cAddr s kv.1 kv.2) st := by
  cases aty with
  | none => exact Or.inl rfl
  | some name =>
    simp only [applyCustomH]
    split
    · split
      · split
        · split
          · exact Or.inl rfl
          · exact Or.inr ⟨_, rfl⟩
        · exact Or.inl rfl
      · exact Or.inl rfl
    · exact Or.inl rfl

/-- One custom-algorithm loop iteration preserves the writing-phase
invariant. -/
theorem applyCustomH_inv (n0 : Nat) (st0 : Store) (cAddr : Nat) (dTop : HDict)
    (hd : ∀ kv ∈ dTop, refsIn n0 cAddr kv.2) (aty : Option String) (st : Store)
    (hinv : WriteInv n0 st0 cAddr dTop st) :
    WriteInv n0 st0 cAddr dTop (applyCustomH cAddr st aty) := by
  rcases applyCustomH_cases cAddr st aty with h | ⟨bdict, h⟩
  · rw [h]
    exact hinv
  · rw [h]
    exact foldl_inv (WriteInv n0 st0 cAddr dTop)
      (fun s kv => writeAlg cAddr s kv.1 kv.2)
      (fun s kv hI => writeAlg_inv n0 st0 cAddr dTop hd s kv.1 kv.2 hI)
      bdict st hinv

/-- C9: the store-level configuration merge never mutates its caller's
objects: in a well-formed store, with fuel covering the configuration's
nesting, every pre-existing address holds exactly the dictionary it held
before the call — the merge builds on a deep copy (the sample descriptor is
passed by value and only read). -/
theorem c9_merge_never_mutates (fuel : Nat) (st : Store) (c : Nat)
    (info : LaneInfo) (hwf : wfStore st = true) (hfuel : 2 ≤ fuel) :
    ∀ a, a < st.mem.length →
      storeGet (update_config_w_custom_st fuel st c info).1 a = storeGet st a := by
  obtain ⟨f, rfl⟩ : ∃ f, fuel = f + 2 := ⟨fuel - 2, by omega⟩
  intro a ha
  cases hg : storeGet st c with
  | none =>
    have hp : dcVal (f + 2) st (HVal.ref c) = (st, HVal.ref c) := by
      simp [show f + 2 = (f + 1) + 1 from rfl, dcVal, hg]
    have happ : ∀ (s : Store), s = st → ∀ aty, applyCustomH c s aty = st := by
      intro s hs aty
      subst hs
      cases aty with
      | none => rfl
      | some name => simp [applyCustomH, hGetKey, hg]
    have hwr : ∀ (s : Store), s = st → ∀ kv : String × PyVal,
        writeAlg c s kv.1 (HVal.prim kv.2) = st := by
      intro s hs kv
      subst hs
      simp [writeAlg, hGetKey, hg]
    have h1 : (nameRemaps info.analysis).foldl (applyCustomH c) st = st :=
      foldl_inv (fun s => s = st) (applyCustomH c)
        (fun s x hs => happ s hs x) (nameRemaps info.analysis) st rfl
    have h2 : info.algorithm.foldl
        (fun s kv => writeAlg c s kv.1 (HVal.prim kv.2)) st = st :=
      foldl_inv (fun s => s = st)
        (fun s kv => writeAlg c s kv.1 (HVal.prim kv.2))
        (fun s x hs => hwr s hs x) info.algorithm st rfl
    have hfinal : (update_config_w_custom_st (f + 2) st c info).1 = st := by
      unfold update_config_w_custom_st
      rw [hp]
      show info.algorithm.foldl _ ((nameRemaps info.analysis).foldl (applyCustomH c) st) = st
      rw [h1, h2]
    rw [hfinal]
  | some topd =>
    have hfreshTop := dcDictGo_fresh (dcVal (f + 1)) (dcVal_mono (f + 1))
      (dcVal_fresh f) topd st (wfStore_get st hwf c topd hg)
    have hp : dcVal (f + 2) st (HVal.ref c)
        = ((alloc (dcDictGo (dcVal (f + 1)) st topd).1
              (dcDictGo (dcVal (f + 1)) st topd).2).1,
           HVal.ref (alloc (dcDictGo (dcVal (f + 1)) st topd).1
              (dcDictGo (dcVal (f + 1)) st topd).2).2) := by
      simp [show f + 2 = (f + 1) + 1 from rfl, dcVal, hg]
    have hinv0 : WriteInv st.mem.length st
        (dcDictGo (dcVal (f + 1)) st topd).1.mem.length
        (dcDictGo (dcVal (f + 1)) st topd).2
        (alloc (dcDictGo (dcVal (f + 1)) st topd).1
          (dcDictGo (dcVal (f + 1)) st topd).2).1 := by
      refine ⟨alloc_get_self _ _, ?_⟩
      intro a' ha'
      rw [alloc_get_lt _ _ a' (Nat.lt_of_lt_of_le ha'
        (dcDictGo_mono (dcVal (f + 1)) (dcVal_mono (f + 1)) topd st))]
      exact dcDictGo_pres (dcVal (f + 1)) (dcVal_mono (f + 1))
        (dcVal_pres (f + 1)) topd st a' ha'
    have hinv1 := foldl_inv
      (WriteInv st.mem.length st
        (dcDictGo (dcVal (f + 1)) st topd).1.mem.length
        (dcDictGo (dcVal (f + 1)) st topd).2)
      (applyCustomH (dcDictGo (dcVal (f + 1)) st topd).1.mem.length)
      (fun s x h => applyCustomH_inv _ _ _ _ hfreshTop x s h)
      (nameRemaps info.analysis) _ hinv0
    have hinv2 := foldl_inv
      (WriteInv st.mem.length st
        (dcDictGo (dcVal (f + 1)) st topd).1.mem.length
        (dcDictGo (dcVal (f + 1)) st topd).2)
      (fun s kv => writeAlg (dcDictGo (dcVal (f + 1)) st topd).1.mem.length
        s kv.1 (HVal.prim kv.2))
      (fun s x h => writeAlg_inv _ _ _ _ hfreshTop s x.1 (HVal.prim x.2) h)
      info.algorithm _ hinv1
    have hfinal : (update_config_w_custom_st (f + 2) st c info).1
        = info.algorithm.foldl
            (fun s kv => writeAlg (dcDictGo (dcVal (f + 1)) st topd).1.mem.length
              s kv.1 (HVal.prim kv.2))
            ((nameRemaps info.analysis).foldl
              (applyCustomH (dcDictGo (dcVal (f + 1)) st topd).1.mem.length)
              ((alloc (dcDictGo (dcVal (f + 1)) st topd).1
                (dcDictGo (dcVal (f + 1)) st topd).2).1)) := by
      unfold update_config_w_custom_st
      rw [hp]
      rfl
    rw [hfinal]
    exact hinv2.2 a ha

/-- Witness for C9: on a concrete well-formed store, the caller's
`algorithm` dictionary (address 1) is unchanged by the merge. -/
theorem c9_witness :
    storeGet ((update_config_w_custom_st 4 wSt9 0 wItem6).1) 1
      = some [("x", HVal.prim (PyVal.int 1))] := by
  rw [c9_merge_never_mutates 4 wSt9 0 wItem6 (by decide) (by omega) 1 (by decide)]
  decide

end Lane
